import Mathlib

/-!
Verification of the reference-resolution algorithm (`resolve`) of a
FHIRPath-style expression engine. The definitions below are a shallow
embedding of `src/registry/functions/fhir_types/resolve.rs`; the value
model, evaluation context and error type that the crate keeps in its
`model` and `registry::function` modules are modelled from the design
document, as indicated on each such definition.
-/

set_option maxHeartbeats 1000000

namespace FhirPathResolve

/-- A JSON document tree, modelling the serde_json values the resolver walks.
Objects are ordered association lists; key lookup returns the first binding. -/
inductive Json where
  | null : Json
  | bool (b : Bool) : Json
  | num (n : Int) : Json
  | str (s : String) : Json
  | arr (elems : List Json) : Json
  | obj (fields : List (String × Json)) : Json

/-- Key lookup in an object's field list (first binding wins). -/
def Json.lookupField : List (String × Json) → String → Option Json
  | [], _ => none
  | (k, v) :: rest, key => if k = key then some v else Json.lookupField rest key

/-- serde_json's Value::get with a string key: a value only for objects. -/
def Json.get : Json → String → Option Json
  | .obj fields, key => Json.lookupField fields key
  | _, _ => none

/-- Value::as_str. -/
def Json.asStr : Json → Option String
  | .str s => some s
  | _ => none

/-- Value::as_array. -/
def Json.asArray : Json → Option (List Json)
  | .arr elems => some elems
  | _ => none

/-- Whether Value::as_object succeeds. The embedded code pairs this test with
`Json.get`, which agrees with serde's map lookup on objects. -/
def Json.isObj : Json → Bool
  | .obj _ => true
  | _ => false

mutual

/-- Size measure for termination of the nested Parameters search. -/
def Json.size : Json → Nat
  | .null => 1
  | .bool _ => 1
  | .num _ => 1
  | .str _ => 1
  | .arr elems => 1 + Json.sizeList elems
  | .obj fields => 1 + Json.sizeFields fields

/-- Size of a list of JSON values. -/
def Json.sizeList : List Json → Nat
  | [] => 0
  | j :: rest => Json.size j + Json.sizeList rest

/-- Size of an object's field list. -/
def Json.sizeFields : List (String × Json) → Nat
  | [] => 0
  | (_, v) :: rest => Json.size v + Json.sizeFields rest

end

theorem Json.size_pos (j : Json) : 0 < Json.size j := by
  cases j <;> simp [Json.size]

theorem Json.lookupField_size {fields : List (String × Json)} {key : String} {v : Json}
    (h : Json.lookupField fields key = some v) : Json.size v ≤ Json.sizeFields fields := by
  induction fields with
  | nil => simp [Json.lookupField] at h
  | cons kv rest ih =>
    obtain ⟨k, w⟩ := kv
    simp only [Json.lookupField] at h
    by_cases hk : k = key
    · simp [hk] at h
      simp [Json.sizeFields, ← h]
    · simp [hk] at h
      have := ih h
      simp [Json.sizeFields]
      omega

theorem Json.get_size {j : Json} {key : String} {v : Json}
    (h : Json.get j key = some v) : Json.size v < Json.size j := by
  cases j <;> simp [Json.get] at h
  case obj fields =>
    have := Json.lookupField_size h
    simp [Json.size]
    omega

theorem Json.asArray_size {j : Json} {xs : List Json}
    (h : Json.asArray j = some xs) : Json.sizeList xs < Json.size j := by
  cases j <;> simp [Json.asArray] at h
  case arr elems => simp [← h, Json.size]

/-- Modelled from the spec: a Resource is an owned, opaque structured-document
wrapper over its JSON content (design document section 3); from_json and
as_json are identities of the content saved here directly. -/
abbrev FhirResource := Json

/-- Modelled from the spec: the Resource wrapper's resourceType accessor
(design document section 3: field lookup by key and a resourceType accessor). -/
def Json.resource_type (r : FhirResource) : Option String :=
  (Json.get r "resourceType").bind Json.asStr

/-- Modelled from the spec: the value model of the crate's `model` module
(design document section 3) — Empty, scalar primitives, typed Resource
wrappers and ordered Collections. -/
inductive FhirPathValue where
  | Empty : FhirPathValue
  | Boolean (b : Bool) : FhirPathValue
  | Integer (n : Int) : FhirPathValue
  | String (s : String) : FhirPathValue
  | Resource (r : FhirResource) : FhirPathValue
  | Collection (items : List FhirPathValue) : FhirPathValue

/-- Modelled from the spec: the Collection construction helper (design document
section 4.1) — it normalizes into one flat Collection, dropping Empty inputs and
splicing nested collections (already flat by the section 3 invariant). -/
def FhirPathValue.collection (items : List FhirPathValue) : FhirPathValue :=
  FhirPathValue.Collection (items.flatMap fun v =>
    match v with
    | .Empty => []
    | .Collection inner => inner
    | other => [other])

/-- Modelled from the spec: the evaluation context record (design document
section 3) — current input, fixed root document, named environment variables. -/
structure EvaluationContext where
  input : FhirPathValue
  root : FhirPathValue
  environment : List (String × FhirPathValue)

/-- Modelled from the spec: the error taxonomy of design document section 7
(the crate's registry::function error type is not under src/). -/
inductive FunctionError where
  | UnknownFunction (name : String)
  | InvalidArity (name : String) (min : Nat) (max : Option Nat) (actual : Nat)
  | TypeMismatch (expected : String) (actual : String)
deriving DecidableEq

/-- The function result type: a value or a typed error. -/
abbrev FunctionResult (α : Type) := Except FunctionError α

/-- Rust's char::is_whitespace, modelled on the ASCII whitespace characters
(the references the claims concern carry no exotic Unicode whitespace). -/
def isRustWhitespace (c : Char) : Bool :=
  c = ' ' || c = '\t' || c = '\n' || c = '\r'

/-- Rust's str::trim: strip leading and trailing whitespace. Implemented over
the character list so that concrete references evaluate inside the kernel. -/
def rustTrim (s : String) : String :=
  String.mk (((s.toList.dropWhile isRustWhitespace).reverse.dropWhile
    isRustWhitespace).reverse)

/-- Rust's str::split on a single separator character: every occurrence
separates, empty segments are kept, and the empty string yields one empty
segment — the same segments Rust's iterator produces, collected in order. -/
def splitOnChar (sep : Char) (s : String) : List String :=
  let r := s.toList.foldl
    (fun acc c => if c = sep then (acc.1 ++ [acc.2], "") else (acc.1, acc.2.push c))
    ([], "")
  r.1 ++ [r.2]

/-- Rust's str::starts_with for a string pattern. -/
def startsWithStr (s pat : String) : Bool :=
  List.isPrefixOf pat.toList s.toList

/-- Rust's str::contains for a single character. -/
def containsChar (s : String) (c : Char) : Bool :=
  s.toList.contains c

/-- Embeds parse_reference_type_id (resolve.rs): split on slash, require at
least two segments, take the last two; the id segment keeps only what stands
before the first question mark or hash (Rust's split-and-next, whose
unwrap_or never fires since split yields at least one segment). -/
def parse_reference_type_id (reference : String) : Option (String × String) :=
  let parts := splitOnChar '/' reference
  match parts.reverse with
  | idPart :: typePart :: _ =>
      some (typePart, String.mk (idPart.toList.takeWhile fun c => !(c == '?' || c == '#')))
  | _ => none

/-- Embeds is_fhir_reference (resolve.rs): contains a slash, or starts with
one of the absolute-URL or URN schemes. -/
def is_fhir_reference (reference : String) : Bool :=
  containsChar reference '/' || startsWithStr reference "http://" ||
    startsWithStr reference "https://" || startsWithStr reference "urn:"

/-- Outcome of one scan loop inside resolve_in_bundle. `abort` records a
question-mark operator firing inside the loop body, which returns none from
the whole resolve_in_bundle at once instead of moving to the next entry or
the next tier. -/
inductive ScanOutcome where
  | found (v : FhirPathValue) : ScanOutcome
  | abort : ScanOutcome
  | missed : ScanOutcome

/-- Embeds the first scan of resolve_in_bundle: exact fullUrl equality; on a
hit, a question-mark operator demands the entry's resource. -/
def bundleTier1 : List Json → String → ScanOutcome
  | [], _ => .missed
  | entry :: rest, reference =>
    match (Json.get entry "fullUrl").bind Json.asStr with
    | some full_url =>
      if full_url = reference then
        match Json.get entry "resource" with
        | some r => .found (.Resource r)
        | none => .abort
      else bundleTier1 rest reference
    | none => bundleTier1 rest reference

/-- Embeds the second scan of resolve_in_bundle: compare each entry's inline
resource (resourceType, id) with the parsed pair. Question-mark operators fire
on a missing resource, a non-object resource, a missing or non-string
resourceType, and — only when the resourceType already agreed, because Rust's
double ampersand short-circuits — a missing or non-string id. -/
def bundleTier2 : List Json → String → String → ScanOutcome
  | [], _, _ => .missed
  | entry :: rest, ref_type, ref_id =>
    match Json.get entry "resource" with
    | none => .abort
    | some res =>
      if (Json.isObj res) = false then .abort
      else
        match (Json.get res "resourceType").bind Json.asStr with
        | none => .abort
        | some rt =>
          if rt = ref_type then
            match (Json.get res "id").bind Json.asStr with
            | none => .abort
            | some idv =>
              if idv = ref_id then .found (.Resource res)
              else bundleTier2 rest ref_type ref_id
          else bundleTier2 rest ref_type ref_id

/-- Embeds the third scan of resolve_in_bundle: parse each entry's own fullUrl
into (type, id) and compare; on a hit, a question-mark operator demands the
entry's resource. -/
def bundleTier3 : List Json → String → String → ScanOutcome
  | [], _, _ => .missed
  | entry :: rest, ref_type, ref_id =>
    match (Json.get entry "fullUrl").bind Json.asStr with
    | some full_url =>
      match parse_reference_type_id full_url with
      | some (t, id) =>
        if t = ref_type ∧ id = ref_id then
          match Json.get entry "resource" with
          | some r => .found (.Resource r)
          | none => .abort
        else bundleTier3 rest ref_type ref_id
      | none => bundleTier3 rest ref_type ref_id
    | none => bundleTier3 rest ref_type ref_id

/-- Embeds resolve_in_bundle (resolve.rs): the entry array is demanded by two
question-mark operators, then the three scans run in order; an abort inside
any scan returns none for the whole search at once, later tiers unattempted. -/
def resolve_in_bundle (reference : String) (bundle : FhirResource) : Option FhirPathValue :=
  match (Json.get bundle "entry").bind Json.asArray with
  | none => none
  | some entries =>
    match bundleTier1 entries reference with
    | .found v => some v
    | .abort => none
    | .missed =>
      match parse_reference_type_id reference with
      | none => none
      | some (ref_type, ref_id) =>
        match bundleTier2 entries ref_type ref_id with
        | .found v => some v
        | .abort => none
        | .missed =>
          match bundleTier3 entries ref_type ref_id with
          | .found v => some v
          | .abort => none
          | .missed => none

theorem Json.get_bind_asArray_size {param : Json} {key : String} {parts : List Json}
    (h : (Json.get param key).bind Json.asArray = some parts) :
    Json.sizeList parts < Json.size param := by
  cases hg : Json.get param key with
  | none => simp [hg] at h
  | some v =>
    simp [hg] at h
    have h1 := Json.asArray_size h
    have h2 := Json.get_size hg
    omega

theorem Json.sizeList_parts_lt {param : Json} {parts rest : List Json}
    (h : (Json.get param "part").bind Json.asArray = some parts) :
    Json.sizeList parts < Json.sizeList (param :: rest) := by
  have h1 := Json.get_bind_asArray_size h
  simp [Json.sizeList]
  omega

theorem Json.sizeList_tail_lt (param : Json) (rest : List Json) :
    Json.sizeList rest < Json.sizeList (param :: rest) := by
  have := Json.size_pos param
  simp [Json.sizeList]
  omega

/-- Embeds the recursive search_params closure of resolve_in_parameters: scan
the array in order; a parameter carrying a resource is checked first — with
question-mark operators aborting the scan of the current array on a malformed
resource, exactly as in bundleTier2 — and then, when the resource check did
not return, the parameter's nested part array is searched recursively; a find
in the parts returns, otherwise the scan moves to the next parameter. -/
def searchParams (array : List Json) (r_type r_id : String) : Option FhirPathValue :=
  match array with
  | [] => none
  | param :: rest =>
    let step : Option (Option FhirPathValue) :=
      match Json.get param "resource" with
      | none => some none
      | some res =>
        if (Json.isObj res) = false then none
        else
          match (Json.get res "resourceType").bind Json.asStr with
          | none => none
          | some rt =>
            if rt = r_type then
              match (Json.get res "id").bind Json.asStr with
              | none => none
              | some idv =>
                if idv = r_id then some (some (FhirPathValue.Resource res))
                else some none
            else some none
    match step with
    | none => none
    | some (some v) => some v
    | some none =>
      match hp : (Json.get param "part").bind Json.asArray with
      | some parts =>
        match searchParams parts r_type r_id with
        | some found => some found
        | none => searchParams rest r_type r_id
      | none => searchParams rest r_type r_id
termination_by Json.sizeList array
decreasing_by
  · exact Json.sizeList_parts_lt hp
  · exact Json.sizeList_tail_lt _ _
  · exact Json.sizeList_tail_lt _ _

/-- Embeds resolve_in_parameters (resolve.rs): demand the parameter array,
parse the reference into (type, id), then run the recursive search. -/
def resolve_in_parameters (reference : String) (parameters : FhirResource) :
    Option FhirPathValue :=
  match (Json.get parameters "parameter").bind Json.asArray with
  | none => none
  | some params =>
    match parse_reference_type_id reference with
    | some (ref_type, ref_id) => searchParams params ref_type ref_id
    | none => none

/-- Embeds resolve_against_resource (resolve.rs): the resource itself matches
when its own resourceType and id equal the parsed pair. -/
def resolve_against_resource (reference : String) (resource : FhirResource) :
    Option FhirPathValue :=
  match parse_reference_type_id reference with
  | none => none
  | some (ref_type, ref_id) =>
    match Json.resource_type resource with
    | none => none
    | some rt =>
      if rt = ref_type then
        if (Json.isObj resource) = false then none
        else
          match (Json.get resource "id").bind Json.asStr with
          | none => none
          | some idv =>
            if idv = ref_id then some (FhirPathValue.Resource resource) else none
      else none

/-- Embeds the contained-array loop of resolve_contained_resource: scan in
order; question-mark operators make a non-object entry, or one without a
string id, return none for the whole method, ending the scan early. -/
def containedScan (contained : List Json) (id : String) : Option FhirPathValue :=
  match contained with
  | [] => none
  | item :: rest =>
    if (Json.isObj item) = false then none
    else
      match (Json.get item "id").bind Json.asStr with
      | none => none
      | some s => if s = id then some (FhirPathValue.Resource item) else containedScan rest id

/-- Embeds resolve_contained_resource (resolve.rs): only a Resource root is
inspected; its contained array, when present, is scanned for the id. -/
def resolve_contained_resource (id : String) (context : EvaluationContext) :
    Option FhirPathValue :=
  match context.root with
  | .Resource root_res =>
    match root_res with
    | .obj _ =>
      match (Json.get root_res "contained").bind Json.asArray with
      | some contained => containedScan contained id
      | none => none
    | _ => none
  | _ => none

/-- Embeds the Collection arm of resolve_string_reference: for each Resource
member in order, the Bundle or Parameters scan chosen by the member's
resourceType, then the member itself via resolve_against_resource; the first
success returns, non-Resource members are passed over. The loop body is the
same block the source writes inline for a Resource root. -/
def resolveMembers (ref_str : String) : List FhirPathValue → Option FhirPathValue
  | [] => none
  | val :: rest =>
    match val with
    | .Resource res =>
      let viaType : Option FhirPathValue :=
        match Json.resource_type res with
        | some rt =>
          if rt = "Bundle" then resolve_in_bundle ref_str res
          else if rt = "Parameters" then resolve_in_parameters ref_str res
          else none
        | none => none
      match viaType with
      | some found => some found
      | none =>
        match resolve_against_resource ref_str res with
        | some found => some found
        | none => resolveMembers ref_str rest
    | _ => resolveMembers ref_str rest

/-- Embeds resolve_string_reference (resolve.rs): trim, gate on the reference
shape, dispatch fragments to the contained lookup, then resolve against the
root — a Resource root runs the Bundle or Parameters scan by its resourceType
and then the self-match, a Collection root runs the same block per member. -/
def resolve_string_reference (reference : String) (context : EvaluationContext) :
    Option FhirPathValue :=
  let ref_str := rustTrim reference
  if !startsWithStr ref_str "#" && !is_fhir_reference ref_str then none
  else if startsWithStr ref_str "#" then
    resolve_contained_resource (String.mk (ref_str.toList.drop 1)) context
  else
    match context.root with
    | .Resource root_res =>
      let viaType : Option FhirPathValue :=
        match Json.resource_type root_res with
        | some rt =>
          if rt = "Bundle" then resolve_in_bundle ref_str root_res
          else if rt = "Parameters" then resolve_in_parameters ref_str root_res
          else none
        | none => none
      match viaType with
      | some found => some found
      | none => resolve_against_resource ref_str root_res
    | .Collection coll => resolveMembers ref_str coll
    | _ => none

/-- Embeds is_reference (resolve.rs): the resource's JSON is an object with a
reference key. -/
def is_reference (resource : FhirResource) : Bool :=
  match resource with
  | .obj fields => (Json.lookupField fields "reference").isSome
  | _ => false

/-- Embeds resolve_reference_resource (resolve.rs): demand the object, its
reference field and that field's string value, then resolve the string. -/
def resolve_reference_resource (resource : FhirResource) (context : EvaluationContext) :
    Option FhirPathValue :=
  if (Json.isObj resource) = false then none
  else
    match (Json.get resource "reference").bind Json.asStr with
    | none => none
    | some reference_str => resolve_string_reference reference_str context

/-- Embeds resolve_item (resolve.rs): strings resolve directly, Resources with
a reference key resolve through their reference field, everything else is
passed over. -/
def resolve_item (item : FhirPathValue) (context : EvaluationContext) :
    Option FhirPathValue :=
  match item with
  | .String uri => resolve_string_reference uri context
  | .Resource resource =>
    if is_reference resource then resolve_reference_resource resource context
    else none
  | _ => none

/-- Embeds ResolveFunction::evaluate: the arity check, the Empty
short-circuit, the per-item resolution filter, and the collection of the
results. -/
def evaluate (args : List FhirPathValue) (context : EvaluationContext) :
    FunctionResult FhirPathValue :=
  if args.isEmpty = false then
    .error (.InvalidArity "resolve" 0 (some 0) args.length)
  else
    match context.input with
    | .Collection items =>
      .ok (FhirPathValue.collection (items.filterMap fun item => resolve_item item context))
    | .Empty => .ok .Empty
    | single =>
      .ok (FhirPathValue.collection (([single]).filterMap fun item => resolve_item item context))

/-- Embeds create_placeholder_resource (resolve.rs): a testing aid that
fabricates a resource from the reference string. Nothing in the resolver
calls it. -/
def create_placeholder_resource (reference : String) : Option FhirPathValue :=
  let resource_type :=
    if containsChar reference '/' then
      String.mk (reference.toList.takeWhile fun c => !(c == '/'))
    else "Resource"
  let id := (splitOnChar '/' reference).getLastD "unknown"
  some (FhirPathValue.Resource (Json.obj
    [("resourceType", Json.str resource_type),
     ("id", Json.str id),
     ("_placeholder", Json.bool true),
     ("_originalReference", Json.str reference)]))

/-! Spec-side definitions: the resolution strategies as the design document
words them, to be compared with the embedded code. -/

/-- The first Bundle scan as the design document words it: the first entry
whose fullUrl equals the full reference wins and its resource is returned. -/
def bundleTier1Spec (entries : List Json) (reference : String) : Option FhirPathValue :=
  entries.findSome? fun entry =>
    match (Json.get entry "fullUrl").bind Json.asStr with
    | some full_url =>
      if full_url = reference then (Json.get entry "resource").map FhirPathValue.Resource
      else none
    | none => none

/-- The second Bundle scan as the design document words it: the first entry
whose inline resource carries the parsed (resourceType, id) wins. -/
def bundleTier2Spec (entries : List Json) (ref_type ref_id : String) : Option FhirPathValue :=
  entries.findSome? fun entry =>
    match Json.get entry "resource" with
    | some res =>
      if (Json.get res "resourceType").bind Json.asStr = some ref_type
          ∧ (Json.get res "id").bind Json.asStr = some ref_id then
        some (FhirPathValue.Resource res)
      else none
    | none => none

/-- The third Bundle scan as the design document words it: parse each entry's
own fullUrl into (type, id) and compare; the matching entry's resource is
returned. -/
def bundleTier3Spec (entries : List Json) (ref_type ref_id : String) : Option FhirPathValue :=
  entries.findSome? fun entry =>
    match (Json.get entry "fullUrl").bind Json.asStr with
    | some full_url =>
      if parse_reference_type_id full_url = some (ref_type, ref_id) then
        (Json.get entry "resource").map FhirPathValue.Resource
      else none
    | none => none

/-- Bundle resolution exactly as claim C1 states it: three scans in order,
every later tier attempted whenever all earlier tiers find no match. -/
def resolveInBundleSpec (reference : String) (bundle : FhirResource) : Option FhirPathValue :=
  match (Json.get bundle "entry").bind Json.asArray with
  | none => none
  | some entries =>
    match bundleTier1Spec entries reference with
    | some v => some v
    | none =>
      match parse_reference_type_id reference with
      | none => none
      | some (ref_type, ref_id) =>
        match bundleTier2Spec entries ref_type ref_id with
        | some v => some v
        | none => bundleTier3Spec entries ref_type ref_id

/-- A Bundle entry is well-formed for the amended claim C1 when it carries an
inline resource that is an object with string resourceType and id fields. -/
def bundleEntryWF (entry : Json) : Bool :=
  match Json.get entry "resource" with
  | some res =>
    Json.isObj res && ((Json.get res "resourceType").bind Json.asStr).isSome
      && ((Json.get res "id").bind Json.asStr).isSome
  | none => false

/-- A Bundle is well-formed when every element of its entry array is. -/
def bundleWF (bundle : FhirResource) : Bool :=
  match (Json.get bundle "entry").bind Json.asArray with
  | some entries => entries.all bundleEntryWF
  | none => true

/-- The depth-first Parameters search exactly as claim C2 states it: at each
parameter the embedded resource is compared first, then the nested part array
is searched, arbitrarily deep; the first depth-first match wins and nothing
else interrupts the scan. -/
def searchParamsSpec (array : List Json) (r_type r_id : String) : Option FhirPathValue :=
  match array with
  | [] => none
  | param :: rest =>
    let here : Option FhirPathValue :=
      match Json.get param "resource" with
      | some res =>
        if (Json.get res "resourceType").bind Json.asStr = some r_type
            ∧ (Json.get res "id").bind Json.asStr = some r_id then
          some (FhirPathValue.Resource res)
        else none
      | none => none
    match here with
    | some v => some v
    | none =>
      match hp : (Json.get param "part").bind Json.asArray with
      | some parts =>
        match searchParamsSpec parts r_type r_id with
        | some found => some found
        | none => searchParamsSpec rest r_type r_id
      | none => searchParamsSpec rest r_type r_id
termination_by Json.sizeList array
decreasing_by
  · exact Json.sizeList_parts_lt hp
  · exact Json.sizeList_tail_lt _ _
  · exact Json.sizeList_tail_lt _ _

/-- Parameters resolution as claim C2 states it: demand the parameter array,
parse the reference, then run the pure depth-first search. -/
def resolveInParametersSpec (reference : String) (parameters : FhirResource) :
    Option FhirPathValue :=
  match (Json.get parameters "parameter").bind Json.asArray with
  | none => none
  | some params =>
    match parse_reference_type_id reference with
    | some (ref_type, ref_id) => searchParamsSpec params ref_type ref_id
    | none => none

/-- Well-formedness of a parameter array for the amended claim C2: every
embedded resource, at every nesting depth, is an object with string
resourceType and id fields. -/
def paramsWF (array : List Json) : Bool :=
  match array with
  | [] => true
  | param :: rest =>
    (match Json.get param "resource" with
     | some res =>
       Json.isObj res && ((Json.get res "resourceType").bind Json.asStr).isSome
         && ((Json.get res "id").bind Json.asStr).isSome
     | none => true)
    && (match hp : (Json.get param "part").bind Json.asArray with
        | some parts => paramsWF parts
        | none => true)
    && paramsWF rest
termination_by Json.sizeList array
decreasing_by
  · exact Json.sizeList_parts_lt hp
  · exact Json.sizeList_tail_lt _ _

/-- A Parameters resource is well-formed when its parameter array is. -/
def parametersWF (parameters : FhirResource) : Bool :=
  match (Json.get parameters "parameter").bind Json.asArray with
  | some params => paramsWF params
  | none => true

/-- The contained-array lookup as claim C3 words it: the first entry whose id
field equals the fragment id is cloned into a new Resource value; entries the
scan cannot match are passed over. -/
def containedScanSpec (contained : List Json) (id : String) : Option FhirPathValue :=
  contained.findSome? fun item =>
    if (Json.get item "id").bind Json.asStr = some id then
      some (FhirPathValue.Resource item)
    else none

/-- A contained entry is well-formed for the amended claim C3 when it is an
object with a string id field. -/
def containedEntryWF (item : Json) : Bool :=
  Json.isObj item && ((Json.get item "id").bind Json.asStr).isSome

/-- One root member's strategy chain as claim C4 words it: the Bundle scan
when the member is a Bundle, the Parameters search when it is a Parameters
resource, and — whenever that found nothing — the member's own self-match. -/
def rootStrategySpec (ref_str : String) (res : FhirResource) : Option FhirPathValue :=
  (if Json.resource_type res = some "Bundle" then resolve_in_bundle ref_str res
   else if Json.resource_type res = some "Parameters" then resolve_in_parameters ref_str res
   else none).orElse fun _ => resolve_against_resource ref_str res

/-- The multi-root resolution as claim C4 words it: the strategy chain
repeated against each Resource member in collection order. -/
def collectionRootSpec (ref_str : String) (members : List FhirPathValue) :
    Option FhirPathValue :=
  members.findSome? fun member =>
    match member with
    | .Resource res => rootStrategySpec ref_str res
    | _ => none

/-- The reference-string extraction resolve performs, as claim C5 words it: a
string item is used directly; a Resource item contributes its reference
field's string value. -/
def extractedRef (item : FhirPathValue) : Option String :=
  match item with
  | .String s => some s
  | .Resource r => (Json.get r "reference").bind Json.asStr
  | _ => none

/-- Reference-shaped exactly as claim C5 words it: the item carries a
reference string that, after trimming, starts with a hash, contains a slash,
or starts with one of the three schemes. -/
def claimRefShaped (item : FhirPathValue) : Bool :=
  match extractedRef item with
  | some s =>
    startsWithStr (rustTrim s) "#" || containsChar (rustTrim s) '/'
      || startsWithStr (rustTrim s) "http://" || startsWithStr (rustTrim s) "https://"
      || startsWithStr (rustTrim s) "urn:"
  | none => false

/-! Concrete documents used by the witnesses and counterexamples. -/

/-- A small Patient resource. -/
def patP1 : Json := Json.obj [("resourceType", Json.str "Patient"), ("id", Json.str "p1")]

/-- A root Resource with one contained Patient. -/
def rootWithContained : Json := Json.obj
  [("resourceType", Json.str "Patient"), ("id", Json.str "root"),
   ("contained", Json.arr [patP1])]

/-- A Bundle entry addressed by a urn fullUrl. -/
def bundleEntry1 : Json := Json.obj
  [("fullUrl", Json.str "urn:uuid:abc"), ("resource", patP1)]

/-- A well-formed Bundle with one entry. -/
def bundle1 : Json := Json.obj
  [("resourceType", Json.str "Bundle"), ("entry", Json.arr [bundleEntry1])]

/-- A small Observation resource. -/
def obsO1 : Json := Json.obj [("resourceType", Json.str "Observation"), ("id", Json.str "o1")]

/-- A Parameters resource embedding the Observation below a nested part. -/
def params1 : Json := Json.obj
  [("resourceType", Json.str "Parameters"),
   ("parameter", Json.arr [Json.obj [("part", Json.arr [Json.obj [("resource", obsO1)]])]])]

/-- A Bundle entry with a fullUrl but no resource. -/
def cbE0 : Json := Json.obj [("fullUrl", Json.str "urn:uuid:no-res")]

/-- A Bundle entry whose fullUrl tail and inline resource both read Patient/p1. -/
def cbE1 : Json := Json.obj
  [("fullUrl", Json.str "http://example.org/fhir/Patient/p1"), ("resource", patP1)]

/-- The counterexample Bundle for claim C1: a resource-less entry stands
before the matching one. -/
def cbBundle : Json := Json.obj
  [("resourceType", Json.str "Bundle"), ("entry", Json.arr [cbE0, cbE1])]

/-- A parameter whose embedded resource lacks an id. -/
def cpBad : Json := Json.obj
  [("resource", Json.obj [("resourceType", Json.str "Observation")])]

/-- A parameter embedding the matching Observation. -/
def cpGood : Json := Json.obj [("resource", obsO1)]

/-- The counterexample Parameters resource for claim C2: the id-less resource
stands before the matching one. -/
def cpParams : Json := Json.obj
  [("resourceType", Json.str "Parameters"), ("parameter", Json.arr [cpBad, cpGood])]

/-- The counterexample root for claim C3: an id-less contained entry stands
before the matching one. -/
def c3Root : Json := Json.obj
  [("resourceType", Json.str "Patient"), ("id", Json.str "root"),
   ("contained", Json.arr [Json.obj [("resourceType", Json.str "Patient")], patP1])]

/-! Helper lemmas: every value a resolution strategy yields is a Resource. -/

theorem containedScan_resource {contained : List Json} {id : String} {v : FhirPathValue}
    (h : containedScan contained id = some v) : ∃ r, v = FhirPathValue.Resource r := by
  induction contained with
  | nil => simp [containedScan] at h
  | cons item rest ih =>
    simp only [containedScan] at h
    split at h
    · exact absurd h (by simp)
    · split at h
      · exact absurd h (by simp)
      · split at h
        · exact ⟨item, (Option.some.injEq ..).mp h.symm⟩
        · exact ih h

theorem bundleTier1_found {entries : List Json} {reference : String} {v : FhirPathValue}
    (h : bundleTier1 entries reference = .found v) : ∃ r, v = FhirPathValue.Resource r := by
  induction entries with
  | nil => simp [bundleTier1] at h
  | cons entry rest ih =>
    simp only [bundleTier1] at h
    split at h
    · split at h
      · split at h
        · exact ⟨_, (ScanOutcome.found.injEq ..).mp h.symm⟩
        · exact absurd h (by simp)
      · exact ih h
    · exact ih h

theorem bundleTier2_found {entries : List Json} {t i : String} {v : FhirPathValue}
    (h : bundleTier2 entries t i = .found v) : ∃ r, v = FhirPathValue.Resource r := by
  induction entries with
  | nil => simp [bundleTier2] at h
  | cons entry rest ih =>
    simp only [bundleTier2] at h
    split at h
    · exact absurd h (by simp)
    · split at h
      · exact absurd h (by simp)
      · split at h
        · exact absurd h (by simp)
        · split at h
          · split at h
            · exact absurd h (by simp)
            · split at h
              · exact ⟨_, (ScanOutcome.found.injEq ..).mp h.symm⟩
              · exact ih h
          · exact ih h

theorem bundleTier3_found {entries : List Json} {t i : String} {v : FhirPathValue}
    (h : bundleTier3 entries t i = .found v) : ∃ r, v = FhirPathValue.Resource r := by
  induction entries with
  | nil => simp [bundleTier3] at h
  | cons entry rest ih =>
    simp only [bundleTier3] at h
    split at h
    · split at h
      · split at h
        · split at h
          · exact ⟨_, (ScanOutcome.found.injEq ..).mp h.symm⟩
          · exact absurd h (by simp)
        · exact ih h
      · exact ih h
    · exact ih h

theorem resolve_in_bundle_resource {reference : String} {bundle : FhirResource}
    {v : FhirPathValue} (h : resolve_in_bundle reference bundle = some v) :
    ∃ r, v = FhirPathValue.Resource r := by
  simp only [resolve_in_bundle] at h
  split at h
  · exact absurd h (by simp)
  · split at h
    · rename_i w hfound
      cases h
      exact bundleTier1_found hfound
    · exact absurd h (by simp)
    · split at h
      · exact absurd h (by simp)
      · split at h
        · rename_i w hfound
          cases h
          exact bundleTier2_found hfound
        · exact absurd h (by simp)
        · split at h
          · rename_i w hfound
            cases h
            exact bundleTier3_found hfound
          · exact absurd h (by simp)
          · exact absurd h (by simp)

theorem searchParams_resource_n (n : Nat) :
    ∀ {array : List Json} {t i : String} {v : FhirPathValue}, Json.sizeList array ≤ n →
      searchParams array t i = some v → ∃ r, v = FhirPathValue.Resource r := by
  induction n with
  | zero =>
    intro array t i v hn h
    cases array with
    | nil => rw [searchParams] at h; exact absurd h (by simp)
    | cons param rest =>
      have := Json.size_pos param
      simp [Json.sizeList] at hn
      omega
  | succ n ih =>
    intro array t i v hn h
    cases array with
    | nil => rw [searchParams] at h; exact absurd h (by simp)
    | cons param rest =>
      have hparts : ∀ {parts : List Json},
          (Json.get param "part").bind Json.asArray = some parts →
          Json.sizeList parts ≤ n := by
        intro parts hp
        have := @Json.sizeList_parts_lt _ _ rest hp
        omega
      have hrest : Json.sizeList rest ≤ n := by
        have := Json.sizeList_tail_lt param rest
        omega
      rw [searchParams] at h
      split at h
      · exact absurd h (by simp)
      · rename_i w hstep
        cases h
        revert hstep
        split
        · intro hstep; exact absurd hstep (by simp)
        · split
          · intro hstep; exact absurd hstep (by simp)
          · split
            · intro hstep; exact absurd hstep (by simp)
            · split
              · split
                · intro hstep; exact absurd hstep (by simp)
                · split
                  · intro hstep
                    cases hstep
                    exact ⟨_, rfl⟩
                  · intro hstep; exact absurd hstep (by simp)
              · intro hstep; exact absurd hstep (by simp)
      · split at h
        · rename_i parts hp
          split at h
          · rename_i w hfound
            cases h
            exact ih (hparts hp) hfound
          · exact ih hrest h
        · exact ih hrest h

theorem searchParams_resource {array : List Json} {t i : String} {v : FhirPathValue}
    (h : searchParams array t i = some v) : ∃ r, v = FhirPathValue.Resource r :=
  searchParams_resource_n (Json.sizeList array) (Nat.le_refl _) h

theorem resolve_in_parameters_resource {reference : String} {parameters : FhirResource}
    {v : FhirPathValue} (h : resolve_in_parameters reference parameters = some v) :
    ∃ r, v = FhirPathValue.Resource r := by
  simp only [resolve_in_parameters] at h
  split at h
  · exact absurd h (by simp)
  · split at h
    · exact searchParams_resource h
    · exact absurd h (by simp)

theorem resolve_against_resource_resource {reference : String} {resource : FhirResource}
    {v : FhirPathValue} (h : resolve_against_resource reference resource = some v) :
    ∃ r, v = FhirPathValue.Resource r := by
  simp only [resolve_against_resource] at h
  split at h
  · exact absurd h (by simp)
  · split at h
    · exact absurd h (by simp)
    · split at h
      · split at h
        · exact absurd h (by simp)
        · split at h
          · exact absurd h (by simp)
          · split at h
            · cases h; exact ⟨_, rfl⟩
            · exact absurd h (by simp)
      · exact absurd h (by simp)

theorem resolveMembers_resource {ref_str : String} {members : List FhirPathValue}
    {v : FhirPathValue} (h : resolveMembers ref_str members = some v) :
    ∃ r, v = FhirPathValue.Resource r := by
  induction members with
  | nil => simp [resolveMembers] at h
  | cons val rest ih =>
    simp only [resolveMembers] at h
    split at h
    · rename_i res
      split at h
      · rename_i w hvia
        cases h
        revert hvia
        split
        · split
          · intro hvia; exact resolve_in_bundle_resource hvia
          · split
            · intro hvia; exact resolve_in_parameters_resource hvia
            · intro hvia; exact absurd hvia (by simp)
        · intro hvia; exact absurd hvia (by simp)
      · split at h
        · rename_i w hagainst
          cases h
          exact resolve_against_resource_resource hagainst
        · exact ih h
    · exact ih h

theorem resolve_contained_resource_resource {id : String} {context : EvaluationContext}
    {v : FhirPathValue} (h : resolve_contained_resource id context = some v) :
    ∃ r, v = FhirPathValue.Resource r := by
  simp only [resolve_contained_resource] at h
  split at h
  · split at h
    · split at h
      · exact containedScan_resource h
      · exact absurd h (by simp)
    · exact absurd h (by simp)
  · exact absurd h (by simp)

theorem resolve_string_reference_resource {reference : String} {context : EvaluationContext}
    {v : FhirPathValue} (h : resolve_string_reference reference context = some v) :
    ∃ r, v = FhirPathValue.Resource r := by
  simp only [resolve_string_reference] at h
  split at h
  · exact absurd h (by simp)
  · split at h
    · exact resolve_contained_resource_resource h
    · split at h
      · rename_i root_res
        split at h
        · rename_i w hvia
          cases h
          revert hvia
          split
          · split
            · intro hvia; exact resolve_in_bundle_resource hvia
            · split
              · intro hvia; exact resolve_in_parameters_resource hvia
              · intro hvia; exact absurd hvia (by simp)
          · intro hvia; exact absurd hvia (by simp)
        · exact resolve_against_resource_resource h
      · exact resolveMembers_resource h
      · exact absurd h (by simp)

theorem resolve_item_resource {item : FhirPathValue} {context : EvaluationContext}
    {v : FhirPathValue} (h : resolve_item item context = some v) :
    ∃ r, v = FhirPathValue.Resource r := by
  cases item with
  | String uri => exact resolve_string_reference_resource h
  | Resource resource =>
    simp only [resolve_item] at h
    split at h
    · simp only [resolve_reference_resource] at h
      split at h
      · exact absurd h (by simp)
      · split at h
        · exact absurd h (by simp)
        · exact resolve_string_reference_resource h
    · exact absurd h (by simp)
  | Empty => simp [resolve_item] at h
  | Boolean b => simp [resolve_item] at h
  | Integer n => simp [resolve_item] at h
  | Collection items => simp [resolve_item] at h

/-- The collection constructor is the identity on lists of Resource values:
nothing is flattened away and nothing is dropped. -/
theorem collection_eq_of_resources {l : List FhirPathValue}
    (h : ∀ v ∈ l, ∃ r, v = FhirPathValue.Resource r) :
    FhirPathValue.collection l = FhirPathValue.Collection l := by
  simp only [FhirPathValue.collection]
  congr 1
  induction l with
  | nil => simp
  | cons v rest ih =>
    obtain ⟨r, rfl⟩ := h v (by simp)
    simp only [List.flatMap_cons]
    rw [ih fun w hw => h w (by simp [hw])]
    simp

/-! Helper lemmas: on well-formed documents the embedded scans agree with the
scans as the design document words them. -/

theorem bundleEntryWF_fields {entry : Json} (h : bundleEntryWF entry = true) :
    ∃ res rt idv, Json.get entry "resource" = some res ∧ Json.isObj res = true ∧
      (Json.get res "resourceType").bind Json.asStr = some rt ∧
      (Json.get res "id").bind Json.asStr = some idv := by
  unfold bundleEntryWF at h
  cases hr : Json.get entry "resource" with
  | none => rw [hr] at h; simp at h
  | some res =>
    rw [hr] at h
    simp only [Bool.and_eq_true, Option.isSome_iff_exists] at h
    obtain ⟨⟨hobj, rt, hrt⟩, idv, hid⟩ := h
    exact ⟨res, rt, idv, rfl, hobj, hrt, hid⟩

theorem bundleTier1_wf {entries : List Json} {reference : String}
    (h : entries.all bundleEntryWF = true) :
    bundleTier1 entries reference =
      (match bundleTier1Spec entries reference with
       | some v => ScanOutcome.found v
       | none => ScanOutcome.missed) := by
  induction entries with
  | nil => simp [bundleTier1, bundleTier1Spec]
  | cons entry rest ih =>
    simp only [List.all_cons, Bool.and_eq_true] at h
    obtain ⟨hwf, hrest⟩ := h
    simp only [bundleTier1, bundleTier1Spec, List.findSome?_cons]
    cases hfu : (Json.get entry "fullUrl").bind Json.asStr with
    | none =>
      simpa [hfu, bundleTier1Spec] using ih hrest
    | some fu =>
      by_cases heq : fu = reference
      · obtain ⟨res, rt, idv, hres, _, _, _⟩ := bundleEntryWF_fields hwf
        simp [hfu, heq, hres]
      · simpa [hfu, heq, bundleTier1Spec] using ih hrest

theorem bundleTier2_wf {entries : List Json} {t i : String}
    (h : entries.all bundleEntryWF = true) :
    bundleTier2 entries t i =
      (match bundleTier2Spec entries t i with
       | some v => ScanOutcome.found v
       | none => ScanOutcome.missed) := by
  induction entries with
  | nil => simp [bundleTier2, bundleTier2Spec]
  | cons entry rest ih =>
    simp only [List.all_cons, Bool.and_eq_true] at h
    obtain ⟨hwf, hrest⟩ := h
    obtain ⟨res, rt, idv, hres, hobj, hrt, hid⟩ := bundleEntryWF_fields hwf
    simp only [bundleTier2, bundleTier2Spec, List.findSome?_cons, hres, hobj, hrt, hid]
    by_cases hteq : rt = t
    · by_cases hieq : idv = i
      · simp [hteq, hieq]
      · simpa [hteq, hieq, bundleTier2Spec] using ih hrest
    · simpa [hteq, fun hcontr => hteq (Option.some.injEq .. ▸ hcontr), bundleTier2Spec]
        using ih hrest

theorem bundleTier3_wf {entries : List Json} {t i : String}
    (h : entries.all bundleEntryWF = true) :
    bundleTier3 entries t i =
      (match bundleTier3Spec entries t i with
       | some v => ScanOutcome.found v
       | none => ScanOutcome.missed) := by
  induction entries with
  | nil => simp [bundleTier3, bundleTier3Spec]
  | cons entry rest ih =>
    simp only [List.all_cons, Bool.and_eq_true] at h
    obtain ⟨hwf, hrest⟩ := h
    simp only [bundleTier3, bundleTier3Spec, List.findSome?_cons]
    cases hfu : (Json.get entry "fullUrl").bind Json.asStr with
    | none =>
      simpa [hfu, bundleTier3Spec] using ih hrest
    | some fu =>
      cases hp : parse_reference_type_id fu with
      | none => simpa [hfu, hp, bundleTier3Spec] using ih hrest
      | some ti =>
        obtain ⟨pt, pid⟩ := ti
        by_cases hmatch : pt = t ∧ pid = i
        · obtain ⟨res, rt, idv, hres, _, _, _⟩ := bundleEntryWF_fields hwf
          simp [hfu, hp, hmatch.1, hmatch.2, hres]
        · have : ¬parse_reference_type_id fu = some (t, i) := by
            rw [hp]; intro hcontr
            exact hmatch (by simpa using hcontr)
          simpa [hfu, hp, hmatch, this, bundleTier3Spec] using ih hrest

theorem resolve_in_bundle_wf {reference : String} {bundle : FhirResource}
    (h : bundleWF bundle = true) :
    resolve_in_bundle reference bundle = resolveInBundleSpec reference bundle := by
  cases hent : (Json.get bundle "entry").bind Json.asArray with
  | none => simp [resolve_in_bundle, resolveInBundleSpec, hent]
  | some entries =>
    have hall : entries.all bundleEntryWF = true := by
      simp only [bundleWF, hent] at h
      exact h
    simp only [resolve_in_bundle, resolveInBundleSpec, hent]
    rw [bundleTier1_wf hall]
    cases h1 : bundleTier1Spec entries reference with
    | some v => rfl
    | none =>
      dsimp only
      cases hp : parse_reference_type_id reference with
      | none => rfl
      | some ti =>
        obtain ⟨t, i⟩ := ti
        dsimp only
        rw [bundleTier2_wf hall]
        cases h2 : bundleTier2Spec entries t i with
        | some v => rfl
        | none =>
          dsimp only
          rw [bundleTier3_wf hall]
          cases h3 : bundleTier3Spec entries t i <;> rfl

theorem searchParams_wf (array : List Json) :
    paramsWF array = true → ∀ t i, searchParams array t i = searchParamsSpec array t i := by
  induction array using paramsWF.induct with
  | case1 =>
    intro h t i
    rw [searchParams, searchParamsSpec]
  | case2 param rest ihparts ihrest =>
    intro h t i
    rw [paramsWF] at h
    simp only [Bool.and_eq_true] at h
    obtain ⟨⟨hres, hparts⟩, hrest⟩ := h
    have tailEq : (match hp : (Json.get param "part").bind Json.asArray with
        | some parts =>
          match searchParams parts t i with
          | some found => some found
          | none => searchParams rest t i
        | none => searchParams rest t i) =
        (match hp : (Json.get param "part").bind Json.asArray with
        | some parts =>
          match searchParamsSpec parts t i with
          | some found => some found
          | none => searchParamsSpec rest t i
        | none => searchParamsSpec rest t i) := by
      split
      · rename_i parts hp
        have hpwf : paramsWF parts = true := by
          split at hparts
          · rename_i parts2 hp2
            rw [hp] at hp2
            cases hp2
            exact hparts
          · rename_i hp2
            rw [hp] at hp2
            cases hp2
        rw [ihparts parts hp hpwf t i]
        cases searchParamsSpec parts t i with
        | some found => rfl
        | none => exact ihrest hrest t i
      · exact ihrest hrest t i
    rw [searchParams, searchParamsSpec]
    cases hr : Json.get param "resource" with
    | none =>
      simp only [hr]
      exact tailEq
    | some res =>
      rw [hr] at hres
      simp only [Bool.and_eq_true, Option.isSome_iff_exists] at hres
      obtain ⟨⟨hobj, rt, hrt⟩, iv, hid⟩ := hres
      simp only [hr, hobj, hrt, hid, Bool.true_eq_false]
      by_cases hteq : rt = t
      · by_cases hieq : iv = i
        · simp [hteq, hieq]
        · simp only [hteq, hieq, if_true, if_false, reduceIte]
          simpa [hieq] using tailEq
      · simp only [hteq, reduceIte]
        simpa [hteq] using tailEq

theorem resolve_in_parameters_wf {reference : String} {parameters : FhirResource}
    (h : parametersWF parameters = true) :
    resolve_in_parameters reference parameters =
      resolveInParametersSpec reference parameters := by
  cases hpar : (Json.get parameters "parameter").bind Json.asArray with
  | none => simp [resolve_in_parameters, resolveInParametersSpec, hpar]
  | some params =>
    have hwf : paramsWF params = true := by
      simp only [parametersWF, hpar] at h
      exact h
    simp only [resolve_in_parameters, resolveInParametersSpec, hpar]
    cases parse_reference_type_id reference with
    | none => rfl
    | some ti => exact searchParams_wf params hwf ti.1 ti.2

theorem containedScan_wf {contained : List Json} {id : String}
    (h : contained.all containedEntryWF = true) :
    containedScan contained id = containedScanSpec contained id := by
  induction contained with
  | nil => simp [containedScan, containedScanSpec]
  | cons item rest ih =>
    simp only [List.all_cons, Bool.and_eq_true] at h
    obtain ⟨hwf, hrest⟩ := h
    simp only [containedEntryWF, Bool.and_eq_true, Option.isSome_iff_exists] at hwf
    obtain ⟨hobj, s, hs⟩ := hwf
    simp only [containedScan, containedScanSpec, List.findSome?_cons, hobj, hs,
      Bool.true_eq_false]
    by_cases heq : s = id
    · simp [heq]
    · simpa [heq, containedScanSpec] using ih hrest

/-- The fragment dispatch: a trimmed reference that starts with a hash always
goes to the contained lookup, with the hash stripped. -/
theorem resolve_string_reference_fragment {reference : String} {context : EvaluationContext}
    (h : startsWithStr (rustTrim reference) "#" = true) :
    resolve_string_reference reference context =
      resolve_contained_resource (String.mk ((rustTrim reference).toList.drop 1)) context := by
  simp [resolve_string_reference, h]

/-- On a Resource root with a well-formed contained array, the contained
lookup is the in-order scan for the fragment id. -/
theorem resolve_contained_resource_wf {id : String} {context : EvaluationContext}
    {root_res : FhirResource} {contained : List Json}
    (hroot : context.root = FhirPathValue.Resource root_res)
    (hcont : (Json.get root_res "contained").bind Json.asArray = some contained)
    (hwf : contained.all containedEntryWF = true) :
    resolve_contained_resource id context = containedScanSpec contained id := by
  have hobj : ∃ fields, root_res = Json.obj fields := by
    cases root_res <;> simp [Json.get] at hcont
    exact ⟨_, rfl⟩
  obtain ⟨fields, rfl⟩ := hobj
  simp only [resolve_contained_resource, hroot, hcont]
  exact containedScan_wf hwf

/-- The strategy chain the source runs inline for one Resource root equals the
spec-side orElse composition, whatever continuation follows a miss. -/
theorem rootStrategySpec_eq_inline (ref_str : String) (res : FhirResource)
    (k : Option FhirPathValue) :
    (match
      (match Json.resource_type res with
       | some rt =>
         if rt = "Bundle" then resolve_in_bundle ref_str res
         else if rt = "Parameters" then resolve_in_parameters ref_str res
         else none
       | none => none) with
     | some found => some found
     | none =>
       match resolve_against_resource ref_str res with
       | some found => some found
       | none => k) =
    (match rootStrategySpec ref_str res with
     | some found => some found
     | none => k) := by
  simp only [rootStrategySpec]
  cases hrt : Json.resource_type res with
  | none =>
    cases resolve_against_resource ref_str res <;> simp [Option.orElse]
  | some rt =>
    by_cases hb : rt = "Bundle"
    · cases resolve_in_bundle ref_str res <;>
        cases resolve_against_resource ref_str res <;> simp +decide [Option.orElse, hb]
    · by_cases hpp : rt = "Parameters"
      · cases resolve_in_parameters ref_str res <;>
          cases resolve_against_resource ref_str res <;> simp +decide [Option.orElse, hb, hpp]
      · cases resolve_against_resource ref_str res <;> simp +decide [Option.orElse, hb, hpp]

theorem resolveMembers_eq_spec (ref_str : String) (members : List FhirPathValue) :
    resolveMembers ref_str members = collectionRootSpec ref_str members := by
  induction members with
  | nil => simp [resolveMembers, collectionRootSpec]
  | cons val rest ih =>
    simp only [resolveMembers, collectionRootSpec, List.findSome?_cons]
    cases val with
    | Resource res =>
      dsimp only
      rw [ih]
      simp only [collectionRootSpec, rootStrategySpec]
      cases hrt : Json.resource_type res with
      | none =>
        cases resolve_against_resource ref_str res <;> simp [Option.orElse]
      | some rt =>
        by_cases hb : rt = "Bundle"
        · cases resolve_in_bundle ref_str res <;>
            cases resolve_against_resource ref_str res <;> simp +decide [Option.orElse, hb]
        · by_cases hpp : rt = "Parameters"
          · cases resolve_in_parameters ref_str res <;>
              cases resolve_against_resource ref_str res <;>
                simp +decide [Option.orElse, hb, hpp]
          · cases resolve_against_resource ref_str res <;>
              simp +decide [Option.orElse, hb, hpp]
    | Empty => simpa [collectionRootSpec] using ih
    | Boolean b => simpa [collectionRootSpec] using ih
    | Integer n => simpa [collectionRootSpec] using ih
    | String s => simpa [collectionRootSpec] using ih
    | Collection items => simpa [collectionRootSpec] using ih

/-- A reference whose trimmed string fails the shape gate resolves to
nothing. -/
theorem resolve_string_reference_gate {reference : String} {context : EvaluationContext}
    (h1 : startsWithStr (rustTrim reference) "#" = false)
    (h2 : is_fhir_reference (rustTrim reference) = false) :
    resolve_string_reference reference context = none := by
  simp [resolve_string_reference, h1, h2]

/-- resolve_item is exactly: extract the reference string, then resolve it. -/
theorem resolve_item_eq_bind (item : FhirPathValue) (context : EvaluationContext) :
    resolve_item item context =
      (extractedRef item).bind fun s => resolve_string_reference s context := by
  cases item with
  | String uri => simp [resolve_item, extractedRef]
  | Resource r =>
    cases r with
    | obj fields =>
      simp only [resolve_item, extractedRef, is_reference, resolve_reference_resource,
        Json.isObj, Json.get]
      cases hl : Json.lookupField fields "reference" with
      | none => simp [hl]
      | some v => cases v <;> simp [hl, Json.asStr]
    | null => simp [resolve_item, extractedRef, is_reference, Json.get]
    | bool b => simp [resolve_item, extractedRef, is_reference, Json.get]
    | num n => simp [resolve_item, extractedRef, is_reference, Json.get]
    | str s => simp [resolve_item, extractedRef, is_reference, Json.get]
    | arr elems => simp [resolve_item, extractedRef, is_reference, Json.get]
  | Empty => simp [resolve_item, extractedRef]
  | Boolean b => simp [resolve_item, extractedRef]
  | Integer n => simp [resolve_item, extractedRef]
  | Collection items => simp [resolve_item, extractedRef]

/-! The claims. -/

/-- Claim C1 as stated fails on the code: in cbBundle the first scan finds no
fullUrl match, and the second scan — meeting the resource-less entry cbE0 —
returns none for the whole Bundle search, so the third scan, which the claim
says is attempted whenever all earlier tiers find no match and which would
match cbE1's fullUrl tail (as the second tier would match its inline
resource), never runs: the Bundle algorithm as the claim words it resolves
the reference, the code does not. -/
theorem C1_bundle_counterexample :
    resolve_in_bundle "Patient/p1" cbBundle = none ∧
      resolveInBundleSpec "Patient/p1" cbBundle =
        some (FhirPathValue.Resource patP1) :=
  ⟨rfl, rfl⟩

/-- Claim C1, amended: on a Bundle root whose every entry carries an inline
object resource with string resourceType and id fields, resolving a reference
scans the entry array three times in order exactly as the claim states —
exact fullUrl equality first, then the inline resource's (resourceType, id)
against the pair parsed from the trimmed reference, then the (type, id)
parsed from each entry's own fullUrl — the first match winning, its resource
returned as a new Resource value, and every later tier attempted whenever all
earlier tiers find no match. On Bundles with a malformed entry a
question-mark operator instead aborts the whole search with no match. -/
theorem C1_bundle_three_tier_scan : ∀ (reference : String) (bundle : FhirResource),
    bundleWF bundle = true →
    resolve_in_bundle reference bundle = resolveInBundleSpec reference bundle :=
  fun _ _ h => resolve_in_bundle_wf h

/-- The amended claim C1 at a concrete well-formed Bundle: the urn fullUrl
match of the first tier resolves. -/
theorem C1_bundle_witness :
    bundleWF bundle1 = true ∧
      resolve_in_bundle "urn:uuid:abc" bundle1 =
        resolveInBundleSpec "urn:uuid:abc" bundle1 ∧
      resolveInBundleSpec "urn:uuid:abc" bundle1 =
        some (FhirPathValue.Resource patP1) :=
  ⟨rfl, C1_bundle_three_tier_scan "urn:uuid:abc" bundle1 rfl, rfl⟩

/-- Claim C2 as stated fails on the code: in cpParams the first parameter's
resource has no id, and the question-mark operators inside search_params end
the whole depth-first search there with none, so the second parameter — whose
resource is the first embedded resource whose (resourceType, id) equals the
parsed pair, and which the claim says is returned — is never examined. -/
theorem C2_parameters_counterexample :
    resolve_in_parameters "Observation/o1" cpParams = none ∧
      resolveInParametersSpec "Observation/o1" cpParams =
        some (FhirPathValue.Resource obsO1) := by
  constructor
  · simp +decide [resolve_in_parameters, searchParams, parse_reference_type_id, splitOnChar,
      Json.get, Json.asArray, Json.asStr, Json.isObj, Json.lookupField, cpParams, cpBad,
      cpGood, obsO1]
  · simp +decide [resolveInParametersSpec, searchParamsSpec, parse_reference_type_id,
      splitOnChar, Json.get, Json.asArray, Json.asStr, Json.isObj, Json.lookupField,
      cpParams, cpBad, cpGood, obsO1]

/-- Claim C2, amended: on a Parameters root whose every embedded resource —
at every nesting depth of the parameter and part arrays — is an object with
string resourceType and id fields, resolving a reference whose (type, id)
pair parses performs the depth-first search exactly as the claim states: each
parameter's own resource is checked before its parts, parts are searched to
arbitrary depth, and the first depth-first match is returned as a new
Resource value. A malformed embedded resource instead ends the scan of its
whole array level at once. -/
theorem C2_parameters_depth_first : ∀ (reference : String) (parameters : FhirResource),
    parametersWF parameters = true →
    resolve_in_parameters reference parameters =
      resolveInParametersSpec reference parameters :=
  fun _ _ h => resolve_in_parameters_wf h

/-- The amended claim C2 at a concrete well-formed Parameters resource: the
Observation nested below a part is found by the recursive search. -/
theorem C2_parameters_witness :
    parametersWF params1 = true ∧
      resolve_in_parameters "Observation/o1" params1 =
        resolveInParametersSpec "Observation/o1" params1 ∧
      resolveInParametersSpec "Observation/o1" params1 =
        some (FhirPathValue.Resource obsO1) :=
  ⟨by simp [parametersWF, paramsWF, Json.get, Json.asArray, Json.asStr, Json.isObj,
      Json.lookupField, params1, obsO1],
   C2_parameters_depth_first "Observation/o1" params1
     (by simp [parametersWF, paramsWF, Json.get, Json.asArray, Json.asStr, Json.isObj,
       Json.lookupField, params1, obsO1]),
   by simp +decide [resolveInParametersSpec, searchParamsSpec, parse_reference_type_id,
     splitOnChar, Json.get, Json.asArray, Json.asStr, Json.isObj, Json.lookupField,
     params1, obsO1]⟩

/-- Claim C3 as stated fails on the code: c3Root's contained array holds an
id-less first entry and then a Patient whose id equals the fragment "#p1";
the claim's in-order search for an entry whose id field equals the fragment
id finds that Patient, but the code's question-mark operators end the scan at
the id-less entry and the item yields nothing. -/
theorem C3_contained_counterexample :
    containedScanSpec [Json.obj [("resourceType", Json.str "Patient")], patP1] "p1" =
        some (FhirPathValue.Resource patP1) ∧
      resolve_string_reference "#p1"
        ⟨FhirPathValue.String "#p1", FhirPathValue.Resource c3Root, []⟩ = none :=
  ⟨rfl, rfl⟩

/-- Claim C3, amended: every input item whose reference is a fragment after
trimming goes to the contained lookup of the root — stripped of its hash —
and, when the root is a Resource whose contained array holds only objects
with string id fields, that lookup returns a new Resource value cloned from
the first entry whose id equals the fragment id, and yields nothing (with no
error) when no entry matches; an entry without a string id instead ends the
scan early. -/
theorem C3_fragment_contained_lookup : ∀ (reference : String)
    (context : EvaluationContext) (root_res : FhirResource) (contained : List Json)
    (id : String),
    (startsWithStr (rustTrim reference) "#" = true →
      resolve_string_reference reference context =
        resolve_contained_resource (String.mk ((rustTrim reference).toList.drop 1))
          context) ∧
    (context.root = FhirPathValue.Resource root_res →
      (Json.get root_res "contained").bind Json.asArray = some contained →
      contained.all containedEntryWF = true →
      resolve_contained_resource id context = containedScanSpec contained id) := by
  intro reference context root_res contained id
  exact ⟨fun h => resolve_string_reference_fragment h,
    fun hroot hcont hwf => resolve_contained_resource_wf hroot hcont hwf⟩

/-- The amended claim C3 at a concrete root: "#p1" resolves to the contained
Patient and "#missing" resolves to nothing. -/
theorem C3_fragment_witness :
    resolve_string_reference "#p1"
        ⟨FhirPathValue.String "#p1", FhirPathValue.Resource rootWithContained, []⟩ =
      some (FhirPathValue.Resource patP1) ∧
    resolve_string_reference "#missing"
        ⟨FhirPathValue.String "#missing", FhirPathValue.Resource rootWithContained, []⟩ =
      none := by
  constructor
  · have h := C3_fragment_contained_lookup "#p1"
      ⟨FhirPathValue.String "#p1", FhirPathValue.Resource rootWithContained, []⟩
      rootWithContained [patP1] "p1"
    exact (h.1 rfl).trans ((h.2 rfl rfl rfl).trans rfl)
  · have h := C3_fragment_contained_lookup "#missing"
      ⟨FhirPathValue.String "#missing", FhirPathValue.Resource rootWithContained, []⟩
      rootWithContained [patP1] "missing"
    exact (h.1 rfl).trans ((h.2 rfl rfl rfl).trans rfl)

/-- Claim C4: for a non-fragment FHIR-shaped reference, a Resource root runs
the Bundle or Parameters strategy chosen by its resourceType and — whenever
that found nothing — the self-match (the orElse of rootStrategySpec); a
Collection root repeats that whole chain against each Resource member in
order with the first success winning (collectionRootSpec); and the self-match
returns the root itself when its own (resourceType, id) equals the parsed
pair. -/
theorem C4_root_strategy_chain : ∀ (reference : String) (context : EvaluationContext)
    (root_res : FhirResource) (members : List FhirPathValue) (t i : String),
    startsWithStr (rustTrim reference) "#" = false →
    is_fhir_reference (rustTrim reference) = true →
    ((context.root = FhirPathValue.Resource root_res →
        resolve_string_reference reference context =
          rootStrategySpec (rustTrim reference) root_res) ∧
     (context.root = FhirPathValue.Collection members →
        resolve_string_reference reference context =
          collectionRootSpec (rustTrim reference) members) ∧
     (parse_reference_type_id (rustTrim reference) = some (t, i) →
        Json.resource_type root_res = some t →
        (Json.get root_res "id").bind Json.asStr = some i →
        resolve_against_resource (rustTrim reference) root_res =
          some (FhirPathValue.Resource root_res))) := by
  intro reference context root_res members t i hf hr
  refine ⟨?_, ?_, ?_⟩
  · intro hroot
    simp only [resolve_string_reference, hf, hr, hroot, Bool.not_false, Bool.not_true,
      Bool.and_false, Bool.false_eq_true, if_false, reduceIte, rootStrategySpec]
    cases hrt : Json.resource_type root_res with
    | none =>
      cases resolve_against_resource (rustTrim reference) root_res <;> simp [Option.orElse]
    | some rt =>
      by_cases hb : rt = "Bundle"
      · cases resolve_in_bundle (rustTrim reference) root_res <;>
          cases resolve_against_resource (rustTrim reference) root_res <;>
            simp +decide [Option.orElse, hb]
      · by_cases hpp : rt = "Parameters"
        · cases resolve_in_parameters (rustTrim reference) root_res <;>
            cases resolve_against_resource (rustTrim reference) root_res <;>
              simp +decide [Option.orElse, hb, hpp]
        · cases resolve_against_resource (rustTrim reference) root_res <;>
            simp +decide [Option.orElse, hb, hpp]
  · intro hroot
    simp only [resolve_string_reference, hf, hr, hroot, Bool.not_false, Bool.not_true,
      Bool.and_false, Bool.false_eq_true, if_false, reduceIte]
    exact resolveMembers_eq_spec (rustTrim reference) members
  · intro hp hrt hid
    have hobj : Json.isObj root_res = true := by
      cases root_res <;> simp [Json.resource_type, Json.get, Json.isObj] at hrt ⊢
    simp [resolve_against_resource, hp, hrt, hid, hobj]

/-- Claim C4 at concrete inputs: a Collection root resolves per member, and a
Patient matching the parsed pair self-matches. -/
theorem C4_witness :
    resolve_string_reference "Patient/p1"
        ⟨FhirPathValue.Empty, FhirPathValue.Collection [FhirPathValue.Resource bundle1],
          []⟩ =
      collectionRootSpec "Patient/p1" [FhirPathValue.Resource bundle1] ∧
    resolve_against_resource "Patient/p1" patP1 = some (FhirPathValue.Resource patP1) := by
  have h := C4_root_strategy_chain "Patient/p1"
    ⟨FhirPathValue.Empty, FhirPathValue.Collection [FhirPathValue.Resource bundle1], []⟩
    patP1 [FhirPathValue.Resource bundle1] "Patient" "p1" rfl rfl
  exact ⟨h.2.1 rfl, h.2.2 rfl rfl rfl⟩

/-- Claim C5: resolve treats an item as reference-shaped exactly when a
reference string is extractable from it — the string itself, or a Resource's
reference field's string value — and that string, trimmed, starts with a hash
or pattern-matches as a FHIR reference; resolution is precisely extraction
followed by string resolution, and a non-shaped item contributes nothing. -/
theorem C5_reference_shape : ∀ (item : FhirPathValue) (context : EvaluationContext),
    resolve_item item context =
      ((extractedRef item).bind fun s => resolve_string_reference s context) ∧
    (claimRefShaped item = false → resolve_item item context = none) ∧
    (claimRefShaped item = true ↔ ∃ s, extractedRef item = some s ∧
      (startsWithStr (rustTrim s) "#" || is_fhir_reference (rustTrim s)) = true) := by
  intro item context
  refine ⟨resolve_item_eq_bind item context, ?_, ?_⟩
  · intro hshape
    rw [resolve_item_eq_bind item context]
    cases hext : extractedRef item with
    | none => rfl
    | some s =>
      simp only [claimRefShaped, hext, Bool.or_eq_false_iff] at hshape
      obtain ⟨⟨⟨⟨h1, h2⟩, h3⟩, h4⟩, h5⟩ := hshape
      show resolve_string_reference s context = none
      exact resolve_string_reference_gate h1 (by simp [is_fhir_reference, h2, h3, h4, h5])
  · constructor
    · intro hshape
      cases hext : extractedRef item with
      | none => simp [claimRefShaped, hext] at hshape
      | some s =>
        refine ⟨s, rfl, ?_⟩
        simp only [claimRefShaped, hext] at hshape
        simp only [is_fhir_reference]
        simpa [Bool.or_assoc] using hshape
    · rintro ⟨s, hext, hgate⟩
      simp only [claimRefShaped, hext]
      simp only [is_fhir_reference] at hgate
      simpa [Bool.or_assoc] using hgate

/-- Claim C5 at a concrete non-reference item: a plain string without a slash
or scheme contributes nothing. -/
theorem C5_witness :
    resolve_item (FhirPathValue.String "not-a-ref")
      ⟨FhirPathValue.Empty, FhirPathValue.Resource bundle1, []⟩ = none :=
  (C5_reference_shape (FhirPathValue.String "not-a-ref")
    ⟨FhirPathValue.Empty, FhirPathValue.Resource bundle1, []⟩).2.1 rfl

/-- Claim C6: on a Collection input, zero-argument resolve returns — with no
error — exactly the in-order list of per-item resolutions, every one of them
a Resource cloned by some strategy and never a fabricated placeholder (the
create_placeholder_resource helper is called nowhere in the resolver);
non-reference-shaped and unresolvable items contribute nothing. -/
theorem C6_lossy_filter : ∀ (context : EvaluationContext) (items : List FhirPathValue),
    context.input = FhirPathValue.Collection items →
    (evaluate [] context =
      Except.ok (FhirPathValue.Collection
        (items.filterMap fun item => resolve_item item context)) ∧
     ∀ v ∈ items.filterMap (fun item => resolve_item item context),
       ∃ r, v = FhirPathValue.Resource r) := by
  intro context items hinput
  have hres : ∀ v ∈ items.filterMap (fun item => resolve_item item context),
      ∃ r, v = FhirPathValue.Resource r := by
    intro v hv
    rw [List.mem_filterMap] at hv
    obtain ⟨item, _, hit⟩ := hv
    exact resolve_item_resource hit
  refine ⟨?_, hres⟩
  simp only [evaluate, hinput, List.isEmpty_nil, Bool.true_eq_false, if_false, reduceIte]
  rw [collection_eq_of_resources hres]

/-- Claim C6 at a concrete input collection: one resolvable fragment and one
junk string produce exactly one resolved Resource. -/
theorem C6_witness :
    evaluate []
        ⟨FhirPathValue.Collection [FhirPathValue.String "#p1", FhirPathValue.String "junk"],
          FhirPathValue.Resource rootWithContained, []⟩ =
      Except.ok (FhirPathValue.Collection [FhirPathValue.Resource patP1]) :=
  ((C6_lossy_filter
    ⟨FhirPathValue.Collection [FhirPathValue.String "#p1", FhirPathValue.String "junk"],
      FhirPathValue.Resource rootWithContained, []⟩
    [FhirPathValue.String "#p1", FhirPathValue.String "junk"] rfl).1).trans rfl

/-- Claim C7: resolve on an Empty input value returns Empty, while an Empty
item inside a multi-item input Collection is skipped like any other
non-reference item (its per-item resolution is none). -/
theorem C7_empty_input : ∀ (root : FhirPathValue) (env : List (String × FhirPathValue))
    (context : EvaluationContext),
    evaluate [] ⟨FhirPathValue.Empty, root, env⟩ = Except.ok FhirPathValue.Empty ∧
    resolve_item FhirPathValue.Empty context = none :=
  fun _ _ _ => ⟨rfl, rfl⟩

/-- Claim C8: any non-empty argument list makes resolve return InvalidArity
with name "resolve", min 0, max 0 and the actual argument count. -/
theorem C8_invalid_arity : ∀ (args : List FhirPathValue) (context : EvaluationContext),
    args ≠ [] →
    evaluate args context =
      Except.error (FunctionError.InvalidArity "resolve" 0 (some 0) args.length) := by
  intro args context h
  cases args with
  | nil => exact absurd rfl h
  | cons a rest => rfl

/-- Claim C8 at one concrete argument: InvalidArity with actual 1. -/
theorem C8_invalid_arity_witness :
    evaluate [FhirPathValue.Integer 1] ⟨FhirPathValue.Empty, FhirPathValue.Empty, []⟩ =
      Except.error (FunctionError.InvalidArity "resolve" 0 (some 0) 1) :=
  C8_invalid_arity [FhirPathValue.Integer 1]
    ⟨FhirPathValue.Empty, FhirPathValue.Empty, []⟩ (by simp)

/-- Claim C9: with the empty argument list, evaluate returns Ok for every
input and root; and every error evaluate can produce at all is the
InvalidArity error of a non-empty argument list. -/
theorem C9_zero_args_ok : ∀ (context : EvaluationContext) (args : List FhirPathValue),
    (∃ v, evaluate [] context = Except.ok v) ∧
    (∀ e, evaluate args context = Except.error e →
      e = FunctionError.InvalidArity "resolve" 0 (some 0) args.length ∧ args ≠ []) := by
  intro context args
  constructor
  · cases h : context.input with
    | Collection items =>
      exact ⟨FhirPathValue.collection (items.filterMap fun item => resolve_item item context),
        by simp [evaluate, h]⟩
    | Empty => exact ⟨FhirPathValue.Empty, by simp [evaluate, h]⟩
    | Boolean b =>
      exact ⟨FhirPathValue.collection
          ([FhirPathValue.Boolean b].filterMap fun item => resolve_item item context),
        by simp [evaluate, h]⟩
    | Integer n =>
      exact ⟨FhirPathValue.collection
          ([FhirPathValue.Integer n].filterMap fun item => resolve_item item context),
        by simp [evaluate, h]⟩
    | String s =>
      exact ⟨FhirPathValue.collection
          ([FhirPathValue.String s].filterMap fun item => resolve_item item context),
        by simp [evaluate, h]⟩
    | Resource r =>
      exact ⟨FhirPathValue.collection
          ([FhirPathValue.Resource r].filterMap fun item => resolve_item item context),
        by simp [evaluate, h]⟩
  · intro e he
    cases args with
    | nil =>
      exfalso
      cases h : context.input <;> simp [evaluate, h] at he
    | cons a rest =>
      have harity : evaluate (a :: rest) context =
          Except.error (FunctionError.InvalidArity "resolve" 0 (some 0)
            (a :: rest).length) := rfl
      rw [harity] at he
      cases he
      exact ⟨rfl, by simp⟩

/-- Claim C10: with a Collection root, a fragment reference never resolves —
the contained lookup inspects only a root that is itself a single Resource,
whatever the members hold — and on any non-Resource root the contained lookup
returns nothing. -/
theorem C10_fragment_collection_root : ∀ (reference : String) (input : FhirPathValue)
    (env : List (String × FhirPathValue)) (members : List FhirPathValue) (id : String)
    (context : EvaluationContext),
    (startsWithStr (rustTrim reference) "#" = true →
      resolve_string_reference reference ⟨input, FhirPathValue.Collection members, env⟩ =
        none) ∧
    ((∀ r, context.root ≠ FhirPathValue.Resource r) →
      resolve_contained_resource id context = none) := by
  intro reference input env members id context
  constructor
  · intro h
    rw [resolve_string_reference_fragment h]
    rfl
  · intro h
    cases hroot : context.root with
    | Resource r => exact absurd hroot (h r)
    | Empty => simp [resolve_contained_resource, hroot]
    | Boolean b => simp [resolve_contained_resource, hroot]
    | Integer n => simp [resolve_contained_resource, hroot]
    | String s => simp [resolve_contained_resource, hroot]
    | Collection l => simp [resolve_contained_resource, hroot]

/-- Claim C10 at a concrete Collection root whose only member has a contained
entry with the matching id: the fragment still resolves to nothing. -/
theorem C10_witness :
    resolve_string_reference "#p1"
        ⟨FhirPathValue.Empty,
          FhirPathValue.Collection [FhirPathValue.Resource rootWithContained], []⟩ =
      none :=
  (C10_fragment_collection_root "#p1" FhirPathValue.Empty []
      [FhirPathValue.Resource rootWithContained] "p1"
      ⟨FhirPathValue.Empty,
        FhirPathValue.Collection [FhirPathValue.Resource rootWithContained], []⟩).1 rfl

end FhirPathResolve
